import Mathlib

/-!
# Verification of the `bintest` build-and-discovery registry

A shallow embedding of `src/lib.rs` of the `bintest` crate. The crate runs
`cargo build --message-format json`, parses the emitted compiler-artifact
records, and stores a process-wide singleton mapping executable names
(file stems of the artifact paths) to the artifact paths, guarded by a
single-configuration invariant.

The embedding models:
* `BinTestBuilder` with its const setters (`workspace`, `quiet`, `release`,
  `debug`, `offline`, `all_targets`, `features`, `profile`, `binaries`,
  `examples`), where the Rust `assert!` panics are modelled as `Except.error`;
* the cargo argument list composed in `BinTest::new_with_builder`;
* the message-stream consumption populating a `BTreeMap<String, Utf8PathBuf>`
  (modelled as a strictly key-sorted association list with `insertSorted`);
* the `OnceLock` singleton acquisition step as a function from the optional
  previous singleton state, the requested builder and the outcome of the
  external `cargo` process to the new state, the caller-visible result and
  whether the build closure ran;
* the accessors `list_executables` and `command`.

Rust path semantics (`Utf8Path::file_stem`, mirroring `std::path::Path`) are
reproduced for UTF-8 paths: the file name is the last normal component, and
the stem drops the part after the last dot, a leading dot not counting.
-/

namespace Bintest

/-- Splits a character list at every occurrence of the separator character. -/
def splitOnChar (sep : Char) : List Char → List (List Char)
  | [] => [[]]
  | c :: rest =>
    match splitOnChar sep rest with
    | [] => if c = sep then [[], []] else [[c]]
    | h :: t => if c = sep then [] :: h :: t else (c :: h) :: t

/-- Final path component, mirroring `Utf8Path::file_name`: empty and `.`
components are normalized away; a path whose last component is `..` (or that
has no component at all) has no file name. -/
def fileName (path : String) : Option String :=
  let comps := (splitOnChar '/' path.data).filter
    (fun c => !(c.isEmpty) && !(c = ['.'] : Bool))
  match comps.getLast? with
  | none => none
  | some c => if c = ['.', '.'] then none else some ⟨c⟩

/-- Position of the last dot of a file name, a dot in leading position not
counting (`.hidden` has no extension), mirroring Rust's file-name splitting. -/
def lastDotIndex (cs : List Char) : Option Nat :=
  ((List.range cs.length).filter
    (fun i => decide (1 ≤ i) && decide (cs.getD i ' ' = '.'))).getLast?

/-- Stem of a file name: the part before the last dot, where a dot in leading
position does not count and `..` is kept whole, mirroring Rust's
`split_file_at_dot`. -/
def stemOfName (cs : List Char) : List Char :=
  if cs = ['.', '.'] then cs
  else
    match lastDotIndex cs with
    | none => cs
    | some i => cs.take i

/-- Mirrors `Utf8Path::file_stem`: the file name minus its extension. This is
what `BinTest::new_with_builder` registers an executable under. -/
def fileStem (path : String) : Option String :=
  (fileName path).map (fun n => ⟨stemOfName n.data⟩)

/-- The configuration builder of `bintest` (`struct BinTestBuilder`). -/
structure BinTestBuilder where
  workspace : Bool
  quiet : Bool
  release : Bool
  offline : Bool
  all_targets : Bool
  features : Option String
  profile : Option String
  binaries : Option (List String)
  examples : Option (List String)
  deriving DecidableEq, Repr

/-- `BinTestBuilder::new`. In the source the default of `release` is the
compile-time constant `RELEASE_BUILD` (`true` iff the test process itself was
compiled without `debug_assertions`); it is passed here as a parameter. -/
def BinTestBuilder.new (releaseBuild : Bool) : BinTestBuilder :=
  { workspace := false, quiet := false, release := releaseBuild, offline := false,
    all_targets := false, features := none, profile := none, binaries := none,
    examples := none }

/-- `BinTestBuilder::workspace`: sets the flag, no once-only guard. -/
def BinTestBuilder.setWorkspace (self : BinTestBuilder) : Except String BinTestBuilder :=
  .ok { self with workspace := true }

/-- `BinTestBuilder::quiet`: sets the flag, no once-only guard. -/
def BinTestBuilder.setQuiet (self : BinTestBuilder) : Except String BinTestBuilder :=
  .ok { self with quiet := true }

/-- `BinTestBuilder::release`: sets the flag, no once-only guard. -/
def BinTestBuilder.setRelease (self : BinTestBuilder) : Except String BinTestBuilder :=
  .ok { self with release := true }

/-- `BinTestBuilder::debug`: clears `release`, no once-only guard. -/
def BinTestBuilder.setDebug (self : BinTestBuilder) : Except String BinTestBuilder :=
  .ok { self with release := false }

/-- `BinTestBuilder::offline`: sets the flag, no once-only guard. -/
def BinTestBuilder.setOffline (self : BinTestBuilder) : Except String BinTestBuilder :=
  .ok { self with offline := true }

/-- `BinTestBuilder::all_targets`: sets the flag, no once-only guard. -/
def BinTestBuilder.setAllTargets (self : BinTestBuilder) : Except String BinTestBuilder :=
  .ok { self with all_targets := true }

/-- `BinTestBuilder::features`: guarded by `assert!(self.features.is_none())`;
the panic is modelled as `Except.error` with the panic message. -/
def BinTestBuilder.setFeatures (self : BinTestBuilder) (features : String) :
    Except String BinTestBuilder :=
  if self.features.isNone then .ok { self with features := some features }
  else .error "features() can only be used once"

/-- `BinTestBuilder::profile`: guarded by `assert!(self.profile.is_none())`. -/
def BinTestBuilder.setProfile (self : BinTestBuilder) (profile : String) :
    Except String BinTestBuilder :=
  if self.profile.isNone then .ok { self with profile := some profile }
  else .error "profile() can only be used once"

/-- `BinTestBuilder::binaries`: guarded by `assert!(self.binaries.is_none())`. -/
def BinTestBuilder.setBinaries (self : BinTestBuilder) (binaries : List String) :
    Except String BinTestBuilder :=
  if self.binaries.isNone then .ok { self with binaries := some binaries }
  else .error "binaries() can only be used once"

/-- `BinTestBuilder::examples`: guarded by `assert!(self.examples.is_none())`. -/
def BinTestBuilder.setExamples (self : BinTestBuilder) (examples : List String) :
    Except String BinTestBuilder :=
  if self.examples.isNone then .ok { self with examples := some examples }
  else .error "examples() can only be used once"

/-- The argument list `BinTest::new_with_builder` hands to the `cargo` child
process, in source order: the fixed prefix, then one flag per enabled boolean
option, then flag-plus-value for each present scalar option, then one
flag-value pair per entry of each list option. -/
def composeArgs (b : BinTestBuilder) : List String :=
  ["build", "--message-format", "json"]
    ++ (if b.workspace then ["--workspace"] else [])
    ++ (if b.quiet then ["--quiet"] else [])
    ++ (if b.release then ["--release"] else [])
    ++ (if b.offline then ["--offline"] else [])
    ++ (if b.all_targets then ["--all-targets"] else [])
    ++ (match b.features with
        | some f => ["--features", f]
        | none => [])
    ++ (match b.profile with
        | some p => ["--profile", p]
        | none => [])
    ++ (match b.binaries with
        | some bs => bs.foldr (fun x acc => "--bin" :: x :: acc) []
        | none => [])
    ++ (match b.examples with
        | some es => es.foldr (fun x acc => "--example" :: x :: acc) []
        | none => [])

/-- One parsed item of the `cargo --message-format json` stream, as consumed
by the loop over `cargo_metadata::Message::parse_stream`: a compiler-artifact
record with its optional executable path, any other record kind, or a
malformed record (on which `message.unwrap()` panics). -/
inductive Message where
  | compilerArtifact (executable : Option String)
  | other
  | malformed
  deriving DecidableEq, Repr

/-- The ways `BinTest::new_with_builder`'s initialization closure can panic,
plus the configuration-conflict assertion after it. -/
inductive BuildError where
  | spawnFailed
  | malformedMessage
  | missingFileName
  | configMismatch
  deriving DecidableEq, Repr

/-- Decidable equality on `Except`, by cases on both constructors. -/
instance {ε α : Type} [DecidableEq ε] [DecidableEq α] : DecidableEq (Except ε α) := fun a b =>
  match a, b with
  | .error e, .error f =>
    if h : e = f then .isTrue (congrArg Except.error h)
    else .isFalse (fun hc => h (Except.error.inj hc))
  | .ok x, .ok y =>
    if h : x = y then .isTrue (congrArg Except.ok h)
    else .isFalse (fun hc => h (Except.ok.inj hc))
  | .error _, .ok _ => .isFalse (fun hc => Except.noConfusion hc)
  | .ok _, .error _ => .isFalse (fun hc => Except.noConfusion hc)

/-- Strict lexicographic order on character lists, comparing code points. -/
def lexLt : List Char → List Char → Bool
  | _, [] => false
  | [], _ :: _ => true
  | a :: as, b :: bs =>
    if a.toNat < b.toNat then true
    else if b.toNat < a.toNat then false
    else lexLt as bs

/-- The strict order `BTreeMap<String, _>` keys are sorted by: lexicographic
comparison of the strings (bytewise UTF-8 comparison in Rust, equivalently
code-point-wise comparison of the characters). -/
def strLt (a b : String) : Bool :=
  lexLt a.data b.data

/-- Ordered insertion into the executable table, the model of
`BTreeMap::insert` on a strictly key-sorted association list; an existing
binding of the same key is replaced. -/
def insertSorted (k : String) (v : String) : List (String × String) → List (String × String)
  | [] => [(k, v)]
  | (k', v') :: rest =>
    if strLt k k' then (k, v) :: (k', v') :: rest
    else if k = k' then (k, v) :: rest
    else (k', v') :: insertSorted k v rest

/-- The message-consumption loop of `BinTest::new_with_builder`: every
compiler-artifact record carrying an executable path inserts
`(file_stem, path)` into the table; `expect("filename")` and
`message.unwrap()` panics are modelled as errors. -/
def collectMessages : List Message → List (String × String) →
    Except BuildError (List (String × String))
  | [], acc => .ok acc
  | .compilerArtifact (some path) :: rest, acc =>
    match fileStem path with
    | none => .error .missingFileName
    | some name => collectMessages rest (insertSorted name path acc)
  | .compilerArtifact none :: rest, acc => collectMessages rest acc
  | .other :: rest, acc => collectMessages rest acc
  | .malformed :: _, _ => .error .malformedMessage

/-- The singleton's payload (`struct BinTest`). -/
structure BinTest where
  configured_with : BinTestBuilder
  build_executables : List (String × String)
  deriving DecidableEq, Repr

/-- `BinTest::list_executables`: iteration over the table in its
(key-sorted) order. -/
def BinTest.list_executables (self : BinTest) : List (String × String) :=
  self.build_executables

/-- A `std::process::Command` as far as `bintest` constructs one: a program
path and a preset argument vector. -/
structure Command where
  program : String
  args : List String
  deriving DecidableEq, Repr

/-- `BTreeMap::get` on the table, an association-list lookup. -/
def lookupExecutable (name : String) : List (String × String) → Option String
  | [] => none
  | (k, v) :: rest => if name = k then some v else lookupExecutable name rest

/-- `BinTest::command`: looks the name up and builds an argument-free
`Command` from the stored path; the `unwrap_or_else` panic on a missing name
is modelled as `Except.error` with the panic message. -/
def BinTest.command (self : BinTest) (name : String) : Except String Command :=
  match lookupExecutable name self.build_executables with
  | some path => .ok { program := path, args := [] }
  | none => .error ("no such executable <<" ++ name ++ ">>")

/-- What the external `cargo build` process did: whether spawning succeeded,
the records it wrote to its piped standard output, and its exit status. The
source never inspects the exit status (it neither waits on the child nor
reads `ExitStatus`), which the theorems below make explicit. -/
structure BuildOutcome where
  spawnOk : Bool
  messages : List Message
  exitCode : Nat
  deriving DecidableEq, Repr

/-- The initialization closure passed to `OnceLock::get_or_init`: fail if the
spawn failed (`expect("'cargo build' success")`), otherwise drain the message
stream into the table and store it with the builder. The outcome's exit code
is not consulted, exactly as in the source. -/
def buildOnce (builder : BinTestBuilder) (outcome : BuildOutcome) :
    Except BuildError BinTest :=
  if outcome.spawnOk then
    match collectMessages outcome.messages [] with
    | .error e => .error e
    | .ok table => .ok { configured_with := builder, build_executables := table }
  else .error .spawnFailed

/-- Result of one `BinTest::new_with_builder` call: the singleton cell after
the call, what the caller sees (the registry reference or the panic), and
whether the initialization closure ran (i.e. whether a build was spawned). -/
structure AcquireResult where
  state : Option BinTest
  result : Except BuildError BinTest
  ranBuild : Bool
  deriving DecidableEq, Repr

/-- `BinTest::new_with_builder` as a step on the `OnceLock` singleton state:
if the cell is filled, the closure never runs and the stored configuration is
compared with the requested one (`assert_eq!`); if it is empty, the closure
runs, a panic inside it leaves the cell empty, and the subsequent
`assert_eq!` compares the just-stored configuration. -/
def acquire (state : Option BinTest) (builder : BinTestBuilder) (outcome : BuildOutcome) :
    AcquireResult :=
  match state with
  | some reg =>
    if reg.configured_with = builder then ⟨some reg, .ok reg, false⟩
    else ⟨some reg, .error .configMismatch, false⟩
  | none =>
    match buildOnce builder outcome with
    | .error e => ⟨none, .error e, true⟩
    | .ok reg =>
      if reg.configured_with = builder then ⟨some reg, .ok reg, true⟩
      else ⟨some reg, .error .configMismatch, true⟩

/-- Spec reading of the Command Composer's boolean options: each option with
its flag, in the documented order. -/
def specBoolFlagTable (b : BinTestBuilder) : List (Bool × String) :=
  [(b.workspace, "--workspace"), (b.quiet, "--quiet"), (b.release, "--release"),
   (b.offline, "--offline"), (b.all_targets, "--all-targets")]

/-- Spec reading of the Command Composer's optional scalar options. -/
def specScalarFlagTable (b : BinTestBuilder) : List (Option String × String) :=
  [(b.features, "--features"), (b.profile, "--profile")]

/-- Spec reading of the Command Composer's list options. -/
def specListFlagTable (b : BinTestBuilder) : List (Option (List String) × String) :=
  [(b.binaries, "--bin"), (b.examples, "--example")]

/-- The Command Composer as the spec words it: the fixed `build` subcommand
and the structured-output flag first, then one flag per enabled boolean
option, then flag followed by value for each present scalar option, then one
flag-value pair per entry of each list option, preserving entry order. -/
def specComposeArgs (b : BinTestBuilder) : List String :=
  ["build", "--message-format", "json"]
    ++ (specBoolFlagTable b).foldr
        (fun p acc => (if p.1 then [p.2] else []) ++ acc) []
    ++ (specScalarFlagTable b).foldr
        (fun p acc =>
          (match p.1 with
           | some v => [p.2, v]
           | none => []) ++ acc) []
    ++ (specListFlagTable b).foldr
        (fun p acc =>
          (match p.1 with
           | some vs => vs.foldr (fun v a => p.2 :: v :: a) []
           | none => []) ++ acc) []

/-- Spec reading of name extraction (Build Message Stream Parser): the final
path component with a trailing platform-specific executable suffix (such as
`.exe` on Windows; the empty suffix on Unix meaning nothing is stripped)
removed when present. -/
def specDerivedName (exeSuffix : String) (path : String) : Option String :=
  (fileName path).map (fun n =>
    if !(exeSuffix.data.isEmpty) && exeSuffix.data.isSuffixOf n.data then
      ⟨n.data.take (n.data.length - exeSuffix.data.length)⟩
    else n)

/-- The path registered for a name by the message loop, per the last-wins
reading: the executable path of the last compiler-artifact record in stream
order whose derived name is the given name. -/
def lastPathFor (name : String) : List Message → Option String
  | [] => none
  | .compilerArtifact (some path) :: rest =>
    (match lastPathFor name rest with
     | some p => some p
     | none =>
       match fileStem path with
       | some n => if n = name then some path else none
       | none => none)
  | .compilerArtifact none :: rest => lastPathFor name rest
  | .other :: rest => lastPathFor name rest
  | .malformed :: rest => lastPathFor name rest

theorem lexLt_irrefl (l : List Char) : lexLt l l = false := by
  induction l with
  | nil => rfl
  | cons a as ih => simp [lexLt, Nat.lt_irrefl, ih]

/-- Strictly increasing keys: the representation invariant of the
`BTreeMap` model. -/
def sortedKeys (l : List (String × String)) : Prop :=
  l.Pairwise (fun a b => strLt a.1 b.1 = true)

/-- Fixture: the default configuration of a debug-built test process. -/
def cfgDefault : BinTestBuilder := BinTestBuilder.new false

/-- Fixture: the default configuration with the workspace flag set. -/
def cfgWorkspace : BinTestBuilder := { cfgDefault with workspace := true }

/-- Fixture: a spawned build that emitted no records and exited cleanly. -/
def outNoMsgs : BuildOutcome := ⟨true, [], 0⟩

/-- Fixture: a spawned build emitting one executable artifact `/d/foo`. -/
def outFoo : BuildOutcome := ⟨true, [.compilerArtifact (some "/d/foo")], 0⟩

/-- Fixture: the registry resulting from `cfgDefault` and `outNoMsgs`. -/
def regEmpty : BinTest := ⟨cfgDefault, []⟩

/-- Fixture: the registry resulting from `cfgDefault` and `outFoo`. -/
def regFoo : BinTest := ⟨cfgDefault, [("foo", "/d/foo")]⟩

theorem charEqOfToNatEq {a b : Char} (h : a.toNat = b.toNat) : a = b := by
  apply Char.eq_of_val_eq
  apply UInt32.eq_of_toBitVec_eq
  apply BitVec.eq_of_toNat_eq
  exact h

theorem lexLt_trans {a b c : List Char} (h₁ : lexLt a b = true) (h₂ : lexLt b c = true) :
    lexLt a c = true := by
  induction a generalizing b c with
  | nil =>
    cases c with
    | nil => cases b <;> simp [lexLt] at h₁ h₂
    | cons y ys => rfl
  | cons x xs ih =>
    cases b with
    | nil => simp [lexLt] at h₁
    | cons y ys =>
      cases c with
      | nil => simp [lexLt] at h₂
      | cons z zs =>
        simp only [lexLt] at h₁ h₂ ⊢
        by_cases hxy : x.toNat < y.toNat
        · by_cases hyz : y.toNat < z.toNat
          · simp [show x.toNat < z.toNat from by omega]
          · by_cases hzy : z.toNat < y.toNat
            · simp [hyz, hzy] at h₂
            · simp [show x.toNat < z.toNat from by omega]
        · by_cases hyx : y.toNat < x.toNat
          · simp [hxy, hyx] at h₁
          · simp [hxy, hyx] at h₁
            by_cases hyz : y.toNat < z.toNat
            · simp [show x.toNat < z.toNat from by omega]
            · by_cases hzy : z.toNat < y.toNat
              · simp [hyz, hzy] at h₂
              · simp [hyz, hzy] at h₂
                have hxz : ¬x.toNat < z.toNat := by omega
                have hzx : ¬z.toNat < x.toNat := by omega
                simp [hxz, hzx]
                exact ih h₁ h₂

theorem lexLt_flip {a b : List Char} (h : lexLt a b = false) (hne : a ≠ b) :
    lexLt b a = true := by
  induction a generalizing b with
  | nil =>
    cases b with
    | nil => exact absurd rfl hne
    | cons y ys => simp [lexLt] at h
  | cons x xs ih =>
    cases b with
    | nil => rfl
    | cons y ys =>
      simp only [lexLt] at h ⊢
      by_cases hxy : x.toNat < y.toNat
      · simp [hxy] at h
      · by_cases hyx : y.toNat < x.toNat
        · simp [hyx]
        · simp [hxy, hyx] at h
          simp [hxy, hyx]
          have hchar : x = y := charEqOfToNatEq (by omega)
          subst hchar
          apply ih h
          intro hxs
          exact hne (by rw [hxs])

theorem strLt_irrefl (a : String) : strLt a a = false :=
  lexLt_irrefl a.data

theorem strLt_trans {a b c : String} (h₁ : strLt a b = true) (h₂ : strLt b c = true) :
    strLt a c = true :=
  lexLt_trans h₁ h₂

theorem strLt_flip {a b : String} (h : strLt a b = false) (hne : a ≠ b) :
    strLt b a = true :=
  lexLt_flip h (fun hd => hne (String.ext hd))

theorem strLt_ne {a b : String} (h : strLt a b = true) : a ≠ b := by
  intro he
  subst he
  rw [strLt_irrefl] at h
  exact Bool.false_ne_true h

theorem lookup_insertSorted_self (k v : String) (l : List (String × String)) :
    lookupExecutable k (insertSorted k v l) = some v := by
  induction l with
  | nil => simp [insertSorted, lookupExecutable]
  | cons hd rest ih =>
    obtain ⟨k', v'⟩ := hd
    simp only [insertSorted]
    by_cases h1 : strLt k k' = true
    · rw [if_pos h1]
      simp [lookupExecutable]
    · rw [if_neg h1]
      by_cases h2 : k = k'
      · rw [if_pos h2]
        simp [lookupExecutable]
      · rw [if_neg h2]
        simp [lookupExecutable, h2, ih]

theorem lookup_insertSorted_ne (j k v : String) (l : List (String × String)) (h : j ≠ k) :
    lookupExecutable j (insertSorted k v l) = lookupExecutable j l := by
  induction l with
  | nil => simp [insertSorted, lookupExecutable, h]
  | cons hd rest ih =>
    obtain ⟨k', v'⟩ := hd
    simp only [insertSorted]
    by_cases h1 : strLt k k' = true
    · rw [if_pos h1]
      simp [lookupExecutable, h]
    · rw [if_neg h1]
      by_cases h2 : k = k'
      · rw [if_pos h2]
        subst h2
        simp [lookupExecutable, h]
      · rw [if_neg h2]
        simp [lookupExecutable, ih]

theorem mem_insertSorted {x : String × String} {k v : String} {l : List (String × String)}
    (h : x ∈ insertSorted k v l) : x = (k, v) ∨ x ∈ l := by
  induction l with
  | nil =>
    simp only [insertSorted] at h
    exact Or.inl (List.mem_singleton.mp h)
  | cons hd rest ih =>
    obtain ⟨k', v'⟩ := hd
    simp only [insertSorted] at h
    by_cases h1 : strLt k k' = true
    · rw [if_pos h1] at h
      rcases List.mem_cons.mp h with rfl | h
      · exact Or.inl rfl
      · exact Or.inr h
    · rw [if_neg h1] at h
      by_cases h2 : k = k'
      · rw [if_pos h2] at h
        rcases List.mem_cons.mp h with rfl | h
        · exact Or.inl rfl
        · exact Or.inr (List.mem_cons_of_mem _ h)
      · rw [if_neg h2] at h
        rcases List.mem_cons.mp h with rfl | h
        · exact Or.inr (List.mem_cons_self _ _)
        · rcases ih h with h3 | h3
          · exact Or.inl h3
          · exact Or.inr (List.mem_cons_of_mem _ h3)

theorem insertSorted_sorted {k v : String} {l : List (String × String)}
    (h : sortedKeys l) : sortedKeys (insertSorted k v l) := by
  induction l with
  | nil => simp [insertSorted, sortedKeys]
  | cons hd rest ih =>
    obtain ⟨k', v'⟩ := hd
    rw [sortedKeys, List.pairwise_cons] at h
    obtain ⟨hall, hrest⟩ := h
    simp only [insertSorted]
    by_cases h1 : strLt k k' = true
    · rw [if_pos h1, sortedKeys, List.pairwise_cons]
      refine ⟨?_, ?_⟩
      · intro a ha
        rcases List.mem_cons.mp ha with rfl | hmem
        · exact h1
        · exact strLt_trans h1 (hall a hmem)
      · rw [List.pairwise_cons]
        exact ⟨hall, hrest⟩
    · rw [if_neg h1]
      by_cases h2 : k = k'
      · rw [if_pos h2, sortedKeys, List.pairwise_cons]
        subst h2
        exact ⟨hall, hrest⟩
      · rw [if_neg h2]
        have hk'k : strLt k' k = true := strLt_flip (by simpa using h1) h2
        rw [sortedKeys, List.pairwise_cons]
        refine ⟨?_, ih hrest⟩
        intro a ha
        rcases mem_insertSorted ha with rfl | hmem
        · exact hk'k
        · exact hall a hmem

theorem sortedKeys_nodup {t : List (String × String)} (h : sortedKeys t) :
    (t.map Prod.fst).Nodup :=
  List.Pairwise.map Prod.fst (fun _ _ hab => strLt_ne hab) h

theorem lookup_of_mem {t : List (String × String)} {name path : String}
    (hs : sortedKeys t) (hmem : (name, path) ∈ t) :
    lookupExecutable name t = some path := by
  induction t with
  | nil => simp at hmem
  | cons hd rest ih =>
    obtain ⟨k, v⟩ := hd
    rw [sortedKeys, List.pairwise_cons] at hs
    obtain ⟨hall, hrest⟩ := hs
    rcases List.mem_cons.mp hmem with heq | hmem2
    · simp only [Prod.mk.injEq] at heq
      obtain ⟨rfl, rfl⟩ := heq
      simp [lookupExecutable]
    · have hne : name ≠ k := Ne.symm (strLt_ne (hall _ hmem2))
      simp [lookupExecutable, hne, ih hrest hmem2]

theorem collect_sorted {msgs : List Message} {acc t : List (String × String)}
    (hacc : sortedKeys acc) (h : collectMessages msgs acc = .ok t) : sortedKeys t := by
  induction msgs generalizing acc with
  | nil =>
    simp only [collectMessages, Except.ok.injEq] at h
    rwa [← h]
  | cons m rest ih =>
    cases m with
    | compilerArtifact exe =>
      cases exe with
      | some path =>
        simp only [collectMessages] at h
        cases hfs : fileStem path with
        | none => rw [hfs] at h; simp at h
        | some n =>
          rw [hfs] at h
          exact ih (insertSorted_sorted hacc) h
      | none => exact ih hacc (by simpa [collectMessages] using h)
    | other => exact ih hacc (by simpa [collectMessages] using h)
    | malformed => simp [collectMessages] at h

theorem collect_lookup {msgs : List Message} {acc t : List (String × String)}
    (h : collectMessages msgs acc = .ok t) (name : String) :
    lookupExecutable name t =
      match lastPathFor name msgs with
      | some p => some p
      | none => lookupExecutable name acc := by
  induction msgs generalizing acc with
  | nil =>
    simp only [collectMessages, Except.ok.injEq] at h
    rw [← h]
    simp [lastPathFor]
  | cons m rest ih =>
    cases m with
    | compilerArtifact exe =>
      cases exe with
      | some path =>
        simp only [collectMessages] at h
        cases hfs : fileStem path with
        | none => rw [hfs] at h; simp at h
        | some n =>
          rw [hfs] at h
          rw [ih h]
          simp only [lastPathFor, hfs]
          cases hl : lastPathFor name rest with
          | some p => simp
          | none =>
            by_cases hn : n = name
            · subst hn
              simp [lookup_insertSorted_self]
            · simp only [hn, if_false, ite_false]
              exact lookup_insertSorted_ne _ _ _ _ (fun he => hn he.symm)
      | none =>
        simp only [collectMessages] at h
        rw [ih h]
        simp [lastPathFor]
    | other =>
      simp only [collectMessages] at h
      rw [ih h]
      simp [lastPathFor]
    | malformed => simp [collectMessages] at h

theorem collect_names {msgs : List Message} {acc t : List (String × String)}
    (hacc : ∀ n p, (n, p) ∈ acc → fileStem p = some n)
    (h : collectMessages msgs acc = .ok t) :
    ∀ n p, (n, p) ∈ t → fileStem p = some n := by
  induction msgs generalizing acc with
  | nil =>
    simp only [collectMessages, Except.ok.injEq] at h
    rwa [← h]
  | cons m rest ih =>
    cases m with
    | compilerArtifact exe =>
      cases exe with
      | some path =>
        simp only [collectMessages] at h
        cases hfs : fileStem path with
        | none => rw [hfs] at h; simp at h
        | some nm =>
          rw [hfs] at h
          refine ih ?_ h
          intro n p hmem
          rcases mem_insertSorted hmem with heq | hmem2
          · simp only [Prod.mk.injEq] at heq
            obtain ⟨rfl, rfl⟩ := heq
            exact hfs
          · exact hacc n p hmem2
      | none => exact ih hacc (by simpa [collectMessages] using h)
    | other => exact ih hacc (by simpa [collectMessages] using h)
    | malformed => simp [collectMessages] at h

theorem acquire_none_ok {b : BinTestBuilder} {o : BuildOutcome} {reg : BinTest}
    (h : (acquire none b o).result = .ok reg) :
    (acquire none b o).state = some reg ∧ reg.configured_with = b ∧
      buildOnce b o = .ok reg := by
  simp only [acquire] at h ⊢
  cases hb : buildOnce b o with
  | error e =>
    rw [hb] at h
    simp at h
  | ok r =>
    rw [hb] at h
    by_cases hc : r.configured_with = b
    · simp only [hc, if_true, Except.ok.injEq] at h ⊢
      subst h
      exact ⟨rfl, hc, rfl⟩
    · simp [hc] at h

theorem acquire_none_ranBuild (b : BinTestBuilder) (o : BuildOutcome) :
    (acquire none b o).ranBuild = true := by
  simp only [acquire]
  cases buildOnce b o with
  | error e => rfl
  | ok r => by_cases hc : r.configured_with = b <;> simp [hc]

theorem setFeatures_twice (b : BinTestBuilder) (v w : String) :
    (b.setFeatures v).bind (fun b2 => b2.setFeatures w)
      = .error "features() can only be used once" := by
  cases hf : b.features <;> simp [BinTestBuilder.setFeatures, hf, Except.bind]

theorem setProfile_twice (b : BinTestBuilder) (v w : String) :
    (b.setProfile v).bind (fun b2 => b2.setProfile w)
      = .error "profile() can only be used once" := by
  cases hf : b.profile <;> simp [BinTestBuilder.setProfile, hf, Except.bind]

theorem setBinaries_twice (b : BinTestBuilder) (vs ws : List String) :
    (b.setBinaries vs).bind (fun b2 => b2.setBinaries ws)
      = .error "binaries() can only be used once" := by
  cases hf : b.binaries <;> simp [BinTestBuilder.setBinaries, hf, Except.bind]

theorem setExamples_twice (b : BinTestBuilder) (vs ws : List String) :
    (b.setExamples vs).bind (fun b2 => b2.setExamples ws)
      = .error "examples() can only be used once" := by
  cases hf : b.examples <;> simp [BinTestBuilder.setExamples, hf, Except.bind]

/-- C1: the claim says a nonzero exit status of the build process (even with
zero artifact records) must fail acquisition with the build-failure error and
never yield an empty-but-successful registry. The code does the opposite: it
never waits on the child nor reads its exit status, so with a spawned process
that emitted zero artifact records and exited with status 1, acquisition
succeeds with an empty registry; moreover the whole acquisition result is
independent of the exit code. -/
theorem cargo_exit_status_ignored :
    ((acquire none (BinTestBuilder.new false) ⟨true, [], 1⟩).result
        = .ok { configured_with := BinTestBuilder.new false, build_executables := [] })
    ∧ ∀ (b : BinTestBuilder) (msgs : List Message) (c₁ c₂ : Nat),
        acquire none b ⟨true, msgs, c₁⟩ = acquire none b ⟨true, msgs, c₂⟩ :=
  ⟨rfl, fun _ _ _ _ => rfl⟩

/-- C2: after a successful acquisition with configuration `A`, acquiring with
any `B ≠ A` hits the `assert_eq!` configuration-conflict panic, and the
`OnceLock` closure does not run again (no rebuild). -/
theorem second_acquire_conflicting_config_fails_without_rebuild
    (A B : BinTestBuilder) (o₁ o₂ : BuildOutcome) (reg : BinTest)
    (hAB : A ≠ B) (h₁ : (acquire none A o₁).result = .ok reg) :
    (acquire (acquire none A o₁).state B o₂).result = .error .configMismatch
    ∧ (acquire (acquire none A o₁).state B o₂).ranBuild = false := by
  obtain ⟨hs, hcfg, _⟩ := acquire_none_ok h₁
  rw [hs]
  have hne : reg.configured_with ≠ B := by rw [hcfg]; exact hAB
  constructor <;> simp [acquire, hne]

theorem second_acquire_conflicting_config_fails_without_rebuild_witness :
    (cfgDefault ≠ cfgWorkspace)
    ∧ ((acquire none cfgDefault outNoMsgs).result = .ok regEmpty)
    ∧ ((acquire (acquire none cfgDefault outNoMsgs).state cfgWorkspace outNoMsgs).result
        = .error .configMismatch
      ∧ (acquire (acquire none cfgDefault outNoMsgs).state cfgWorkspace outNoMsgs).ranBuild
        = false) := by
  refine ⟨by decide, by decide, ?_⟩
  exact second_acquire_conflicting_config_fails_without_rebuild cfgDefault cfgWorkspace
    outNoMsgs outNoMsgs regEmpty (by decide) (by decide)

/-- C3: after a successful acquisition with configuration `A`, acquiring with
`A` again returns the very same singleton registry (hence an identical
table); the `OnceLock` closure ran on the first acquisition and does not run
again on the second: the build tool is invoked only once. -/
theorem second_acquire_same_config_reuses_singleton
    (A : BinTestBuilder) (o₁ o₂ : BuildOutcome) (reg : BinTest)
    (h₁ : (acquire none A o₁).result = .ok reg) :
    (acquire none A o₁).ranBuild = true
    ∧ (acquire (acquire none A o₁).state A o₂).result = .ok reg
    ∧ (acquire (acquire none A o₁).state A o₂).state = some reg
    ∧ (acquire (acquire none A o₁).state A o₂).ranBuild = false := by
  obtain ⟨hs, hcfg, _⟩ := acquire_none_ok h₁
  rw [hs]
  refine ⟨acquire_none_ranBuild A o₁, ?_, ?_, ?_⟩ <;> simp [acquire, hcfg]

theorem second_acquire_same_config_reuses_singleton_witness :
    ((acquire none cfgDefault outFoo).result = .ok regFoo)
    ∧ ((acquire none cfgDefault outFoo).ranBuild = true
      ∧ (acquire (acquire none cfgDefault outFoo).state cfgDefault outNoMsgs).result
        = .ok regFoo
      ∧ (acquire (acquire none cfgDefault outFoo).state cfgDefault outNoMsgs).state
        = some regFoo
      ∧ (acquire (acquire none cfgDefault outFoo).state cfgDefault outNoMsgs).ranBuild
        = false) := by
  refine ⟨by decide, ?_⟩
  exact second_acquire_same_config_reuses_singleton cfgDefault outFoo outNoMsgs regFoo
    (by decide)

/-- C4, counterexample: not every builder option is guarded — calling the
boolean `workspace()` option a second time is not an error; it succeeds and
returns the same configuration as a single call. -/
theorem boolean_option_twice_succeeds :
    ((BinTestBuilder.new false).setWorkspace).bind BinTestBuilder.setWorkspace
      = .ok { BinTestBuilder.new false with workspace := true }
    ∧ (BinTestBuilder.new false).setWorkspace
      = .ok { BinTestBuilder.new false with workspace := true } :=
  ⟨rfl, rfl⟩

/-- C4, amended: for each single-use option (`features`, `profile`,
`binaries`, `examples`), setting it a second time on the same builder is a
construction-time failure (the `assert!` panic), raised in the builder phase
before any build process is spawned; the boolean options carry no such
guard. -/
theorem single_use_options_twice_fail (b : BinTestBuilder) (v w : String)
    (vs ws : List String) :
    (b.setFeatures v).bind (fun b2 => b2.setFeatures w)
        = .error "features() can only be used once"
    ∧ (b.setProfile v).bind (fun b2 => b2.setProfile w)
        = .error "profile() can only be used once"
    ∧ (b.setBinaries vs).bind (fun b2 => b2.setBinaries ws)
        = .error "binaries() can only be used once"
    ∧ (b.setExamples vs).bind (fun b2 => b2.setExamples ws)
        = .error "examples() can only be used once" :=
  ⟨setFeatures_twice b v w, setProfile_twice b v w,
   setBinaries_twice b vs ws, setExamples_twice b vs ws⟩

/-- C5, counterexample: the registered name is not "final component minus a
platform-specific executable suffix": for the artifact path
`/build/debug/foo.sh` the code registers `foo` (Rust `file_stem` strips any
final extension), while the spec's extraction leaves `foo.sh` both on Unix
(empty suffix) and on Windows (`.exe` suffix). -/
theorem file_stem_strips_nonplatform_extension :
    fileStem "/build/debug/foo.sh" = some "foo"
    ∧ specDerivedName "" "/build/debug/foo.sh" = some "foo.sh"
    ∧ specDerivedName ".exe" "/build/debug/foo.sh" = some "foo.sh"
    ∧ ("foo" : String) ≠ "foo.sh"
    ∧ collectMessages [.compilerArtifact (some "/build/debug/foo.sh")] []
        = .ok [("foo", "/build/debug/foo.sh")] :=
  ⟨by decide, by decide, by decide, by decide, by decide⟩

/-- C5, amended: for every artifact record carrying an executable path, the
registered name is the path's file stem — the final path component with the
portion after its last dot removed (a leading dot not counting), i.e. any
trailing extension is stripped, not only a platform-specific executable
suffix. -/
theorem registered_name_is_file_stem (msgs : List Message) (t : List (String × String))
    (h : collectMessages msgs [] = .ok t) :
    ∀ n p, (n, p) ∈ t → fileStem p = some n :=
  collect_names (fun _ _ hp => absurd hp (List.not_mem_nil _)) h

theorem registered_name_is_file_stem_witness :
    (collectMessages [.compilerArtifact (some "/build/debug/app.sh")] []
        = .ok [("app", "/build/debug/app.sh")])
    ∧ (("app", "/build/debug/app.sh")
        ∈ ([("app", "/build/debug/app.sh")] : List (String × String)))
    ∧ fileStem "/build/debug/app.sh" = some "app" := by
  refine ⟨by decide, by decide, ?_⟩
  exact registered_name_is_file_stem [.compilerArtifact (some "/build/debug/app.sh")]
    [("app", "/build/debug/app.sh")] (by decide) "app" "/build/debug/app.sh" (by decide)

/-- C6: the composed cargo invocation equals its spec-side description: the
fixed `build` subcommand with the structured-output flag first, then one flag
per enabled boolean option, flag-plus-value per present scalar option, and
one flag-value pair per entry of each list option in caller order. -/
theorem composeArgs_matches_spec (b : BinTestBuilder) :
    composeArgs b = specComposeArgs b := by
  simp [composeArgs, specComposeArgs, specBoolFlagTable, specScalarFlagTable,
    specListFlagTable]

/-- C7: whenever the message loop completes, looking a name up in the table
yields the executable path of the last artifact in stream order whose derived
name is that name (later artifacts overwrite earlier ones), and the table's
keys are pairwise distinct. -/
theorem table_last_artifact_wins (msgs : List Message) (t : List (String × String))
    (name : String) (h : collectMessages msgs [] = .ok t) :
    lookupExecutable name t = lastPathFor name msgs
    ∧ (t.map Prod.fst).Nodup := by
  refine ⟨?_, sortedKeys_nodup (collect_sorted (by simp [sortedKeys]) h)⟩
  rw [collect_lookup h name]
  cases lastPathFor name msgs <;> simp [lookupExecutable]

theorem table_last_artifact_wins_witness :
    (collectMessages [.compilerArtifact (some "/t/foo"), .compilerArtifact (some "/u/foo")] []
        = .ok [("foo", "/u/foo")])
    ∧ (lookupExecutable "foo" [("foo", "/u/foo")]
        = lastPathFor "foo" [.compilerArtifact (some "/t/foo"), .compilerArtifact (some "/u/foo")]
      ∧ (([("foo", "/u/foo")] : List (String × String)).map Prod.fst).Nodup) := by
  refine ⟨by decide, ?_⟩
  exact table_last_artifact_wins
    [.compilerArtifact (some "/t/foo"), .compilerArtifact (some "/u/foo")]
    [("foo", "/u/foo")] "foo" (by decide)

/-- C8: on any constructed registry, `list_executables` is a pure read of the
finalized table: repeated calls return the same sequence, and that sequence
is strictly sorted in lexicographic order of the names. -/
theorem list_executables_sorted_and_stable (msgs : List Message) (cfg : BinTestBuilder)
    (t : List (String × String)) (h : collectMessages msgs [] = .ok t) :
    (BinTest.mk cfg t).list_executables.Pairwise (fun a b => strLt a.1 b.1 = true)
    ∧ ∀ (n : Nat) (l : List (String × String)),
        l ∈ List.replicate n (BinTest.mk cfg t).list_executables →
        l = (BinTest.mk cfg t).list_executables := by
  refine ⟨collect_sorted (by simp [sortedKeys]) h, ?_⟩
  intro n l hl
  exact List.eq_of_mem_replicate hl

theorem list_executables_sorted_and_stable_witness :
    (collectMessages [.compilerArtifact (some "/t/b"), .compilerArtifact (some "/t/a")] []
        = .ok [("a", "/t/a"), ("b", "/t/b")])
    ∧ ((BinTest.mk cfgDefault
          [("a", "/t/a"), ("b", "/t/b")]).list_executables.Pairwise
            (fun a b => strLt a.1 b.1 = true)
      ∧ ∀ (n : Nat) (l : List (String × String)),
          l ∈ List.replicate n (BinTest.mk cfgDefault
            [("a", "/t/a"), ("b", "/t/b")]).list_executables →
          l = (BinTest.mk cfgDefault
            [("a", "/t/a"), ("b", "/t/b")]).list_executables) := by
  refine ⟨by decide, ?_⟩
  exact list_executables_sorted_and_stable
    [.compilerArtifact (some "/t/b"), .compilerArtifact (some "/t/a")]
    cfgDefault [("a", "/t/a"), ("b", "/t/b")] (by decide)

/-- C9: round-trip — every `(name, path)` pair reported by
`list_executables` makes `command name` succeed with a process descriptor
whose program is exactly `path` and whose preset argument vector is empty. -/
theorem list_command_roundtrip (msgs : List Message) (cfg : BinTestBuilder)
    (t : List (String × String)) (name path : String)
    (h : collectMessages msgs [] = .ok t)
    (hmem : (name, path) ∈ (BinTest.mk cfg t).list_executables) :
    (BinTest.mk cfg t).command name = .ok { program := path, args := [] } := by
  have hs : sortedKeys t := collect_sorted (by simp [sortedKeys]) h
  have hl : lookupExecutable name t = some path := lookup_of_mem hs hmem
  simp only [BinTest.command]
  rw [hl]

theorem list_command_roundtrip_witness :
    (collectMessages [.compilerArtifact (some "/x/bar")] [] = .ok [("bar", "/x/bar")])
    ∧ (("bar", "/x/bar")
        ∈ (BinTest.mk cfgDefault [("bar", "/x/bar")]).list_executables)
    ∧ (BinTest.mk cfgDefault [("bar", "/x/bar")]).command "bar"
        = .ok { program := "/x/bar", args := [] } := by
  refine ⟨by decide, by decide, ?_⟩
  exact list_command_roundtrip [.compilerArtifact (some "/x/bar")] cfgDefault
    [("bar", "/x/bar")] "bar" "/x/bar" (by decide) (by decide)

/-- C10: the boolean builder options (`workspace`, `quiet`, `release`,
`debug`, `offline`, `all_targets`) succeed when repeated and are idempotent —
a second call returns the configuration of a single call — while only
`features`, `profile`, `binaries` and `examples` carry the once-only
construction-time guard. -/
theorem boolean_setters_idempotent_only_scalar_list_guarded (b : BinTestBuilder) :
    (b.setWorkspace.bind BinTestBuilder.setWorkspace = b.setWorkspace
      ∧ b.setQuiet.bind BinTestBuilder.setQuiet = b.setQuiet
      ∧ b.setRelease.bind BinTestBuilder.setRelease = b.setRelease
      ∧ b.setDebug.bind BinTestBuilder.setDebug = b.setDebug
      ∧ b.setOffline.bind BinTestBuilder.setOffline = b.setOffline
      ∧ b.setAllTargets.bind BinTestBuilder.setAllTargets = b.setAllTargets)
    ∧ (b.setWorkspace.isOk = true ∧ b.setQuiet.isOk = true ∧ b.setRelease.isOk = true
      ∧ b.setDebug.isOk = true ∧ b.setOffline.isOk = true ∧ b.setAllTargets.isOk = true)
    ∧ (∀ v w : String,
        ((b.setFeatures v).bind (fun b2 => b2.setFeatures w)).isOk = false)
    ∧ (∀ v w : String,
        ((b.setProfile v).bind (fun b2 => b2.setProfile w)).isOk = false)
    ∧ (∀ vs ws : List String,
        ((b.setBinaries vs).bind (fun b2 => b2.setBinaries ws)).isOk = false)
    ∧ (∀ vs ws : List String,
        ((b.setExamples vs).bind (fun b2 => b2.setExamples ws)).isOk = false) := by
  refine ⟨⟨rfl, rfl, rfl, rfl, rfl, rfl⟩, ⟨rfl, rfl, rfl, rfl, rfl, rfl⟩, ?_, ?_, ?_, ?_⟩
  · intro v w
    rw [setFeatures_twice]
    rfl
  · intro v w
    rw [setProfile_twice]
    rfl
  · intro vs ws
    rw [setBinaries_twice]
    rfl
  · intro vs ws
    rw [setExamples_twice]
    rfl

end Bintest
